import Mathlib

/-!
Verification of the asset-ingestion and listing core of the repository
(`src/server/routes.ts`, schema in `src/unnamed/part_003`).

The TypeScript source is shallowly embedded:
* the Google Drive folder hierarchy manipulated by `createDriveFolder`
  (routes.ts:400-433) becomes an explicit `DriveState` threaded through a
  recursive walk over the path segments, together with a trace of the
  store calls the walk performs;
* `DatabaseStorage.getAssets` / `getAsset` / `deleteAsset` /
  `getAssetCount` (routes.ts:486-572) become pure functions over a
  `List AssetRec` modelling the `assets` table;
* the `POST /api/assets/upload` handler (routes.ts:171-275) becomes a
  recursion over the uploaded files that threads the drive state, the
  metadata store and a trace of storage side effects, and that aborts on
  the first thrown error exactly as the handler's single `try/catch` does.

Opaque Google Drive identifiers are modelled by the inductive `FolderId`
(the literal `'root'` plus generated ids); the database's generated uuid
primary keys are modelled by `Nat`.
-/

namespace RepoMgmt

/-! ### Google Drive folder model (`createDriveFolder`, routes.ts:400-433) -/

/-- Opaque Google Drive folder/file identifier: the well-known `'root'`
plus ids generated by `drive.files.create`. -/
inductive FolderId where
  | root
  | gen (n : Nat)
deriving DecidableEq, Repr

/-- One folder of the Drive hierarchy: its id, its parent's id and its name. -/
structure DriveFolder where
  id : FolderId
  parent : FolderId
  name : String
deriving DecidableEq, Repr

/-- The Drive store: the folders that exist, plus a counter generating fresh ids. -/
structure DriveState where
  folders : List DriveFolder
  nextId : Nat
deriving DecidableEq, Repr

def emptyDrive : DriveState := ⟨[], 0⟩

/-- A call made against the Drive store during the folder walk:
`drive.files.list` (routes.ts:408-411) or `drive.files.create` (routes.ts:423-426). -/
inductive DriveOp where
  | lookup (parent : FolderId) (name : String)
  | create (parent : FolderId) (name : String) (created : FolderId)
deriving DecidableEq, Repr

def DriveOp.isCreate : DriveOp → Bool
  | .create _ _ _ => true
  | _ => false

/-- `drive.files.list({q: name='…' and '…' in parents and mimeType=folder})`
followed by taking `response.data.files[0]` (routes.ts:408-414). -/
def findChildFolder (s : DriveState) (parent : FolderId) (name : String) :
    Option DriveFolder :=
  (s.folders.filter fun f => f.name == name && f.parent == parent).head?

/-- Result of the folder walk: the leaf id returned, the drive state after
the walk, and the trace of store calls in order. -/
structure WalkResult where
  leaf : FolderId
  state : DriveState
  trace : List DriveOp
deriving DecidableEq, Repr

/-- The `for (const folderName of folders)` loop of `createDriveFolder`
(routes.ts:404-430): skip empty segments, look the segment up under the
current parent, descend into the found folder or create a new one. -/
def walkSegments : List String → FolderId → DriveState → WalkResult
  | [], parent, s => ⟨parent, s, []⟩
  | seg :: rest, parent, s =>
    if seg = "" then walkSegments rest parent s
    else
      match findChildFolder s parent seg with
      | some f =>
        let r := walkSegments rest f.id s
        ⟨r.leaf, r.state, .lookup parent seg :: r.trace⟩
      | none =>
        let created := FolderId.gen s.nextId
        let s1 : DriveState := ⟨s.folders ++ [⟨created, parent, seg⟩], s.nextId + 1⟩
        let r := walkSegments rest created s1
        ⟨r.leaf, r.state, .lookup parent seg :: .create parent seg created :: r.trace⟩

/-- JavaScript `folderPath.split('/')` (routes.ts:401): split the
character list on `'/'`, keeping empty chunks, exactly as `String.prototype.split`
with a single-character separator does. -/
def splitSlash (s : String) : List String :=
  (s.data.splitOn '/').map fun l => ⟨l⟩

/-- `createDriveFolder(folderPath)` (routes.ts:400-433): split the path on
`'/'` and walk the segments starting from `'root'`. -/
def createDriveFolder (path : String) (s : DriveState) : WalkResult :=
  walkSegments (splitSlash path) FolderId.root s

/-! ### Path and filename derivation (routes.ts:183-200) -/

/-- `month.toString().padStart(2, '0')` (routes.ts:187, 200). -/
def pad2 (n : Nat) : String :=
  if n < 10 then "0" ++ Nat.repr n else Nat.repr n

/-- JavaScript `resort || 'Brand'` (routes.ts:187, 200): `undefined` and the
empty string are falsy. -/
def resortOrBrand (resort : Option String) : String :=
  match resort with
  | none => "Brand"
  | some s => if s = "" then "Brand" else s

/-- The filename stem of routes.ts:187:
`` `${year}_${month…padStart}_${region}_${resort || 'Brand'}_${assetType}_V${version}` ``. -/
def filenameStem (year month : Nat) (region : String) (resort : Option String)
    (assetType : String) (version : Nat) : String :=
  Nat.repr year ++ "_" ++ pad2 month ++ "_" ++ region ++ "_" ++ resortOrBrand resort
    ++ "_" ++ assetType ++ "_V" ++ Nat.repr version

/-- `` `${filename}${extension}` `` (routes.ts:189). -/
def fullFilename (year month : Nat) (region : String) (resort : Option String)
    (assetType : String) (version : Nat) (extension : String) : String :=
  filenameStem year month region resort assetType version ++ extension

/-- The folder path of routes.ts:200:
`` `Assets/${category}/${region}/${state}/${resort || 'Brand'}/${year}/${month…}/${assetType}` ``. -/
def folderPath (category region state : String) (resort : Option String)
    (year month : Nat) (assetType : String) : String :=
  "Assets/" ++ category ++ "/" ++ region ++ "/" ++ state ++ "/" ++ resortOrBrand resort
    ++ "/" ++ Nat.repr year ++ "/" ++ pad2 month ++ "/" ++ assetType

/-- Modelled from the spec (§4.1): the documented canonical filename stem
template `\x7byear\x7d_\x7bpaddedMonth\x7d_\x7bregion\x7d_\x7bresort-or-Brand\x7d_\x7bassetType\x7d_V\x7bversion\x7d`,
written independently of the code for the refinement comparison in claim C7. -/
def specFilenameStem (year month : Nat) (region : String) (resort : Option String)
    (assetType : String) (version : Nat) : String :=
  Nat.repr year ++ "_" ++ pad2 month ++ "_" ++ region ++ "_" ++ resortOrBrand resort
    ++ "_" ++ assetType ++ "_V" ++ Nat.repr version

/-! ### Asset records and the metadata store
(schema `src/unnamed/part_003`, `DatabaseStorage`, routes.ts:486-604) -/

/-- A row of the `assets` table (schema in `src/unnamed/part_003`).
Generated uuid keys are modelled by `Nat`; `timestamp` columns by `Int`. -/
structure AssetRec where
  id : Nat
  filename : String
  originalName : String
  category : String
  assetType : String
  region : String
  state : String
  resort : Option String
  year : Nat
  month : Nat
  version : Nat
  fileSize : Nat
  mimeType : String
  tags : List String
  isFavorite : Bool
  uploadDate : Int
deriving DecidableEq, Repr

/-- The filter object accepted by `DatabaseStorage.getAssets`
(routes.ts:486-498); `none` models an absent (`undefined`) option.
The declared `tags` option is never read by the implementation and is omitted. -/
structure Filters where
  category : Option String := none
  assetType : Option String := none
  region : Option String := none
  state : Option String := none
  resort : Option String := none
  startDate : Option Int := none
  endDate : Option Int := none
  search : Option String := none
  limit : Option Nat := none
  offset : Option Nat := none
deriving DecidableEq, Repr

/-- One text-equality condition of routes.ts:502-516: the condition is pushed
only when the filter value is truthy (present and non-empty), and then requires
exact equality. A record passes when the condition is absent or satisfied. -/
def strCond (v : Option String) (field : String) : Bool :=
  match v with
  | none => true
  | some s => if s = "" then true else field == s

/-- The `resort` condition (routes.ts:514-516): `assets.resort` is nullable and
SQL equality against `NULL` never holds. -/
def resortCond (v : Option String) (field : Option String) : Bool :=
  match v with
  | none => true
  | some s =>
    if s = "" then true
    else match field with
      | some r => r == s
      | none => false

/-- `gte(assets.uploadDate, filters.startDate)` when present (routes.ts:517-519). -/
def startCond (v : Option Int) (uploadDate : Int) : Bool :=
  match v with
  | none => true
  | some d => d ≤ uploadDate

/-- `lte(assets.uploadDate, filters.endDate)` when present (routes.ts:520-522). -/
def endCond (v : Option Int) (uploadDate : Int) : Bool :=
  match v with
  | none => true
  | some d => uploadDate ≤ d

/-- `like(assets.filename, %search%)` when the search string is truthy
(routes.ts:523-525): substring match on the filename. -/
def searchCond (v : Option String) (filename : String) : Bool :=
  match v with
  | none => true
  | some s => if s = "" then true else decide (s.data <:+: filename.data)

/-- The conjunction `and(...conditions)` of routes.ts:500-529 applied to one row. -/
def matchesFilters (fl : Filters) (a : AssetRec) : Bool :=
  strCond fl.category a.category && strCond fl.assetType a.assetType &&
  strCond fl.region a.region && strCond fl.state a.state &&
  resortCond fl.resort a.resort &&
  startCond fl.startDate a.uploadDate && endCond fl.endDate a.uploadDate &&
  searchCond fl.search a.filename

/-- Insertion step of `orderBy(desc(assets.uploadDate))` (routes.ts:531). -/
def insertDesc (a : AssetRec) : List AssetRec → List AssetRec
  | [] => [a]
  | b :: l => if a.uploadDate ≤ b.uploadDate then b :: insertDesc a l else a :: b :: l

/-- `orderBy(desc(assets.uploadDate))` (routes.ts:531) as an insertion sort. -/
def sortByDateDesc : List AssetRec → List AssetRec
  | [] => []
  | a :: l => insertDesc a (sortByDateDesc l)

/-- `query.offset(filters.offset)` is only attached when the offset is truthy
(routes.ts:536-538): `0` and `undefined` leave the query unchanged. -/
def applyOffset (o : Option Nat) (l : List AssetRec) : List AssetRec :=
  match o with
  | none => l
  | some n => if n = 0 then l else l.drop n

/-- `query.limit(filters.limit)` is only attached when the limit is truthy
(routes.ts:533-535). -/
def applyLimit (o : Option Nat) (l : List AssetRec) : List AssetRec :=
  match o with
  | none => l
  | some n => if n = 0 then l else l.take n

/-- `DatabaseStorage.getAssets` (routes.ts:486-541): filter, order by upload
date descending, then apply SQL `LIMIT`/`OFFSET` (offset before limit). -/
def getAssets (fl : Filters) (store : List AssetRec) : List AssetRec :=
  applyLimit fl.limit (applyOffset fl.offset (sortByDateDesc (store.filter (matchesFilters fl))))

/-- `DatabaseStorage.getAsset` (routes.ts:543-546). -/
def getAsset (assetId : Nat) (store : List AssetRec) : Option AssetRec :=
  store.find? fun a => a.id == assetId

/-- `DatabaseStorage.deleteAsset` (routes.ts:565-567). -/
def deleteAssetStore (assetId : Nat) (store : List AssetRec) : List AssetRec :=
  store.filter fun a => !(a.id == assetId)

/-- `DatabaseStorage.getAssetCount` (routes.ts:569-572): `count(*)` over the
whole table, with no filter. -/
def getAssetCount (store : List AssetRec) : Nat :=
  store.length

/-- The `GET /api/assets` handler (routes.ts:36-76): run the filtered query
(with the parsed `limit`/`offset`, defaults 20 and 0), fetch the unfiltered
total count, and report `hasMore: offset + limit < totalCount`. Returns
(page, totalCount, hasMore). -/
def listAssetsHandler (q : Filters) (limit offset : Nat) (store : List AssetRec) :
    List AssetRec × Nat × Bool :=
  let fl := { q with limit := some limit, offset := some offset }
  (getAssets fl store, getAssetCount store, decide (offset + limit < getAssetCount store))

/-- Outcome of the `DELETE /api/assets/:id` handler. -/
inductive DeleteResponse where
  | notFound
  | success
  | failure
deriving DecidableEq, Repr

/-- The `DELETE /api/assets/:id` handler (routes.ts:294-312): look the asset
up, then `await drive.files.delete(...)`, then delete the metadata record.
`blobDeleteOk` models whether the Drive deletion call succeeded; when it
throws, the `catch` returns a 500 response and `storage.deleteAsset` is never
reached. -/
def deleteHandler (assetId : Nat) (blobDeleteOk : Bool) (store : List AssetRec) :
    DeleteResponse × List AssetRec :=
  match getAsset assetId store with
  | none => (.notFound, store)
  | some _ =>
    if blobDeleteOk then (.success, deleteAssetStore assetId store)
    else (.failure, store)

/-! ### Upload pipeline (`POST /api/assets/upload`, routes.ts:171-275) -/

/-- An uploaded file as multer presents it: original client name, the
temporary name on disk, size and MIME type. -/
structure UploadedFile where
  originalname : String
  tmpFilename : String
  size : Nat
  mimetype : String
deriving DecidableEq, Repr

/-- The form fields destructured from `req.body` (routes.ts:178); any of them
may be `undefined`. -/
structure UploadBody where
  category : Option String := none
  assetType : Option String := none
  region : Option String := none
  state : Option String := none
  resort : Option String := none
  tags : Option String := none
deriving DecidableEq, Repr

/-- JavaScript template-literal interpolation of a possibly-`undefined`
string: `undefined` prints as the literal text `"undefined"`. -/
def jsStr (v : Option String) : String :=
  v.getD "undefined"

/-- JavaScript `resort || null` (routes.ts:248). -/
def resortNull (v : Option String) : Option String :=
  match v with
  | none => none
  | some s => if s = "" then none else some s

/-- `tags ? tags.split(',').map(tag => tag.trim()) : []` (routes.ts:259). -/
def splitTags (v : Option String) : List String :=
  match v with
  | none => []
  | some s =>
    if s = "" then []
    else (s.data.splitOn ',').map fun l => (⟨l⟩ : String).trim

/-- Model of Node's `path.extname(name)` (routes.ts:188): the part of the
basename from its last dot on, empty when the basename has no dot or only a
leading dot. -/
def extname (name : String) : String :=
  let base := (name.data.splitOn '/').getLastD []
  let parts := base.splitOn '.'
  if parts.length ≤ 1 then ""
  else if parts.length = 2 && (parts.headD []).isEmpty then ""
  else "." ++ (⟨parts.getLastD []⟩ : String)

/-- Success condition of `insertAssetSchema.parse(assetData)` (routes.ts:262):
the schema (from `src/unnamed/part_003`) requires `category`, `assetType`,
`region` and `state` to be non-null strings, and the handler feeds it the raw
body fields, so parsing throws exactly when one of the four is `undefined`. -/
def parseOk (b : UploadBody) : Bool :=
  b.category.isSome && b.assetType.isSome && b.region.isSome && b.state.isSome

/-- A storage side effect performed by the upload handler for one file. -/
inductive Effect where
  | folderLookup (parent : FolderId) (name : String)
  | folderCreate (parent : FolderId) (name : String)
  | blobUpload (folder : FolderId) (name : String)
  | metaInsert (filename : String)
deriving DecidableEq, Repr

def Effect.isMetaInsert : Effect → Bool
  | .metaInsert _ => true
  | _ => false

def Effect.isBlobUpload : Effect → Bool
  | .blobUpload _ _ => true
  | _ => false

def Effect.isFolderCreate : Effect → Bool
  | .folderCreate _ _ => true
  | _ => false

/-- View a Drive walk operation as a storage side effect. -/
def DriveOp.toEffect : DriveOp → Effect
  | .lookup p n => .folderLookup p n
  | .create p n _ => .folderCreate p n

/-- One iteration of the upload loop (routes.ts:181-265) for file `f`:
derive the filename (routes.ts:183-189); when Drive is configured (`cfg`),
resolve/create the folder hierarchy and upload the blob (routes.ts:197-231);
build `assetData` and run `insertAssetSchema.parse` (routes.ts:241-262) —
a parse failure throws (`none` outcome) before `storage.createAsset`
(routes.ts:263) inserts the record. `y`/`m` are the year and month the handler
reads from the ingestion-time clock; the record's upload timestamp and uuid are
assigned by the database and modelled as `0` and a fresh index. -/
def processFile (cfg : Bool) (b : UploadBody) (f : UploadedFile) (y m : Nat)
    (ds : DriveState) (store : List AssetRec) :
    Option AssetRec × DriveState × List AssetRec × List Effect :=
  let stem := filenameStem y m (jsStr b.region) b.resort (jsStr b.assetType) 1
  let full := stem ++ extname f.originalname
  let driveStep :=
    if cfg then
      let fp := folderPath (jsStr b.category) (jsStr b.region) (jsStr b.state)
        b.resort y m (jsStr b.assetType)
      let r := createDriveFolder fp ds
      (r.state, r.trace.map DriveOp.toEffect ++ [Effect.blobUpload r.leaf full])
    else (ds, ([] : List Effect))
  if parseOk b then
    let a : AssetRec :=
      { id := store.length
        filename := full
        originalName := f.originalname
        category := jsStr b.category
        assetType := jsStr b.assetType
        region := jsStr b.region
        state := jsStr b.state
        resort := resortNull b.resort
        year := y
        month := m
        version := 1
        fileSize := f.size
        mimeType := f.mimetype
        tags := splitTags b.tags
        isFavorite := false
        uploadDate := 0 }
    (some a, driveStep.1, store ++ [a], driveStep.2 ++ [Effect.metaInsert full])
  else
    (none, driveStep.1, store, driveStep.2)

/-- Response of the upload route: 400 when no files were sent, a single 500
`"Failed to upload assets"` when any iteration throws (the one `try/catch`
wraps the whole loop, routes.ts:172-274), or 200 with the created records. -/
inductive UploadResponse where
  | noFiles
  | failure
  | success (assets : List AssetRec)
deriving DecidableEq, Repr

/-- The `for (const file of files)` loop (routes.ts:181-265): files are
processed in order; the first thrown error aborts the loop and the whole
request, keeping every record persisted so far. -/
def uploadGo (cfg : Bool) (b : UploadBody) (y m : Nat) :
    List UploadedFile → DriveState → List AssetRec → List AssetRec → List Effect →
    UploadResponse × DriveState × List AssetRec × List Effect
  | [], ds, store, acc, effs => (.success acc, ds, store, effs)
  | f :: rest, ds, store, acc, effs =>
    match processFile cfg b f y m ds store with
    | (some a, ds1, store1, e1) => uploadGo cfg b y m rest ds1 store1 (acc ++ [a]) (effs ++ e1)
    | (none, ds1, store1, e1) => (.failure, ds1, store1, effs ++ e1)

/-- The `POST /api/assets/upload` handler (routes.ts:171-275). Returns the
response, the Drive state, the metadata store and the trace of side effects. -/
def uploadHandler (cfg : Bool) (b : UploadBody) (files : List UploadedFile)
    (y m : Nat) (ds : DriveState) (store : List AssetRec) :
    UploadResponse × DriveState × List AssetRec × List Effect :=
  if files.isEmpty then (.noFiles, ds, store, [])
  else uploadGo cfg b y m files ds store [] []

/-! ### Lemmas about the Drive folder walk -/

theorem walkSegments_filter (l : List String) (p : FolderId) (s : DriveState) :
    walkSegments (l.filter fun x => x != "") p s = walkSegments l p s := by
  induction l generalizing p s with
  | nil => rfl
  | cons seg rest ih =>
    by_cases h : seg = ""
    · subst h
      simpa [walkSegments] using ih p s
    · have hb : (seg != "") = true := by simp [h]
      rw [List.filter_cons, if_pos hb]
      simp only [walkSegments, if_neg h]
      cases hf : findChildFolder s p seg with
      | some f => simp [hf, ih]
      | none => simp [hf, ih]

theorem walkSegments_mono (l : List String) (p : FolderId) (s : DriveState) :
    (∃ tail, (walkSegments l p s).state.folders = s.folders ++ tail) ∧
      s.nextId ≤ (walkSegments l p s).state.nextId := by
  induction l generalizing p s with
  | nil => exact ⟨⟨[], by simp [walkSegments]⟩, Nat.le_refl _⟩
  | cons seg rest ih =>
    by_cases h : seg = ""
    · simpa [walkSegments, h] using ih p s
    · simp only [walkSegments, if_neg h]
      cases hf : findChildFolder s p seg with
      | some f => simpa using ih f.id s
      | none =>
        obtain ⟨⟨tail, ht⟩, hn⟩ :=
          ih (FolderId.gen s.nextId) ⟨s.folders ++ [⟨FolderId.gen s.nextId, p, seg⟩], s.nextId + 1⟩
        refine ⟨⟨⟨FolderId.gen s.nextId, p, seg⟩ :: tail, ?_⟩, ?_⟩
        · simpa using ht
        · simpa using Nat.le_trans (Nat.le_succ _) hn

theorem walkSegments_mem (l : List String) (p : FolderId) (s : DriveState)
    (f : DriveFolder) (hf : f ∈ s.folders) : f ∈ (walkSegments l p s).state.folders := by
  obtain ⟨⟨tail, ht⟩, -⟩ := walkSegments_mono l p s
  rw [ht]
  exact List.mem_append_left _ hf

/-- Invariant of the Drive store maintained by the walk: every folder id was
generated below the counter, and no two folders share a (parent, name) pair —
the latter because a folder is only created after a lookup for that pair
found nothing. -/
def DriveInv (s : DriveState) : Prop :=
  (∀ f ∈ s.folders, ∃ k, k < s.nextId ∧ f.id = FolderId.gen k) ∧
  (∀ f ∈ s.folders, ∀ g ∈ s.folders, f.parent = g.parent → f.name = g.name → f = g)

theorem findChildFolder_none_iff (s : DriveState) (p : FolderId) (n : String) :
    findChildFolder s p n = none ↔ ∀ f ∈ s.folders, ¬(f.name = n ∧ f.parent = p) := by
  unfold findChildFolder
  rw [List.head?_eq_none_iff, List.filter_eq_nil_iff]
  constructor
  · intro h f hf hc
    exact h f hf (by simp [hc.1, hc.2])
  · intro h f hf hb
    simp only [Bool.and_eq_true, beq_iff_eq] at hb
    exact h f hf ⟨hb.1, hb.2⟩

theorem findChildFolder_some (s : DriveState) (p : FolderId) (n : String)
    (f : DriveFolder) (h : findChildFolder s p n = some f) :
    f ∈ s.folders ∧ f.name = n ∧ f.parent = p := by
  unfold findChildFolder at h
  cases hl : s.folders.filter (fun g => g.name == n && g.parent == p) with
  | nil => rw [hl] at h; cases h
  | cons x xs =>
    rw [hl] at h
    have hx : x ∈ s.folders.filter (fun g => g.name == n && g.parent == p) := by
      rw [hl]; exact List.mem_cons_self _ _
    obtain ⟨hmem, hb⟩ := List.mem_filter.mp hx
    simp only [Bool.and_eq_true, beq_iff_eq] at hb
    cases h
    exact ⟨hmem, hb.1, hb.2⟩

theorem head?_eq_of_all_eq {α : Type} (l : List α) (a : α) (hne : l ≠ [])
    (hall : ∀ x ∈ l, x = a) : l.head? = some a := by
  cases l with
  | nil => exact absurd rfl hne
  | cons x xs =>
    have := hall x (List.mem_cons_self _ _)
    simp [List.head?, this]

theorem findChildFolder_of_mem (s : DriveState) (p : FolderId) (n : String)
    (f : DriveFolder) (hinv : DriveInv s) (hf : f ∈ s.folders)
    (hn : f.name = n) (hp : f.parent = p) :
    findChildFolder s p n = some f := by
  unfold findChildFolder
  apply head?_eq_of_all_eq
  · intro hnil
    have : f ∈ s.folders.filter (fun g => g.name == n && g.parent == p) :=
      List.mem_filter.mpr ⟨hf, by simp [hn, hp]⟩
    rw [hnil] at this
    cases this
  · intro g hg
    obtain ⟨hgmem, hb⟩ := List.mem_filter.mp hg
    simp only [Bool.and_eq_true, beq_iff_eq] at hb
    exact hinv.2 g hgmem f hf (hb.2.trans hp.symm) (hb.1.trans hn.symm)

theorem DriveInv_create (s : DriveState) (p : FolderId) (n : String)
    (hinv : DriveInv s) (hnone : findChildFolder s p n = none) :
    DriveInv ⟨s.folders ++ [⟨FolderId.gen s.nextId, p, n⟩], s.nextId + 1⟩ := by
  have hno := (findChildFolder_none_iff s p n).mp hnone
  constructor
  · intro f hf
    rcases List.mem_append.mp hf with hold | hnew
    · obtain ⟨k, hk, hid⟩ := hinv.1 f hold
      exact ⟨k, Nat.lt_trans hk (Nat.lt_succ_self _), hid⟩
    · rw [List.mem_singleton.mp hnew]
      exact ⟨s.nextId, Nat.lt_succ_self _, rfl⟩
  · intro f hf g hg hpar hname
    rcases List.mem_append.mp hf with hfo | hfn <;>
      rcases List.mem_append.mp hg with hgo | hgn
    · exact hinv.2 f hfo g hgo hpar hname
    · rw [List.mem_singleton.mp hgn] at hpar hname ⊢
      exact absurd ⟨hname, hpar⟩ (hno f hfo)
    · rw [List.mem_singleton.mp hfn] at hpar hname ⊢
      exact absurd ⟨hname.symm, hpar.symm⟩ (hno g hgo)
    · rw [List.mem_singleton.mp hfn, List.mem_singleton.mp hgn]

theorem walkSegments_inv (l : List String) (p : FolderId) (s : DriveState)
    (hinv : DriveInv s) : DriveInv (walkSegments l p s).state := by
  induction l generalizing p s with
  | nil => exact hinv
  | cons seg rest ih =>
    by_cases h : seg = ""
    · simpa [walkSegments, h] using ih p s hinv
    · simp only [walkSegments, if_neg h]
      cases hf : findChildFolder s p seg with
      | some f => simpa using ih f.id s hinv
      | none => simpa using ih (FolderId.gen s.nextId) _ (DriveInv_create s p seg hinv hf)

/-- Re-running the walk on the state it produced finds every folder instead of
creating it: same leaf, unchanged state, and a creation-free trace. -/
theorem walkSegments_replay (l : List String) (p : FolderId) (s : DriveState)
    (hinv : DriveInv s) :
    (walkSegments l p (walkSegments l p s).state).leaf = (walkSegments l p s).leaf ∧
    (walkSegments l p (walkSegments l p s).state).state = (walkSegments l p s).state ∧
    (walkSegments l p (walkSegments l p s).state).trace.filter DriveOp.isCreate = [] := by
  induction l generalizing p s with
  | nil => simp [walkSegments]
  | cons seg rest ih =>
    by_cases h : seg = ""
    · simpa [walkSegments, h] using ih p s hinv
    · cases hf : findChildFolder s p seg with
      | some f =>
        obtain ⟨hmem, hname, hpar⟩ := findChildFolder_some s p seg f hf
        have hinv' := walkSegments_inv rest f.id s hinv
        have hfmem := walkSegments_mem rest f.id s f hmem
        have hfind' : findChildFolder (walkSegments rest f.id s).state p seg = some f :=
          findChildFolder_of_mem _ p seg f hinv' hfmem hname hpar
        have hih := ih f.id s hinv
        simp only [walkSegments, if_neg h, hf, hfind']
        refine ⟨hih.1, hih.2.1, ?_⟩
        simpa [DriveOp.isCreate] using hih.2.2
      | none =>
        set g : DriveFolder := ⟨FolderId.gen s.nextId, p, seg⟩ with hg
        set s1 : DriveState := ⟨s.folders ++ [g], s.nextId + 1⟩ with hs1
        have hinv1 : DriveInv s1 := DriveInv_create s p seg hinv hf
        have hgmem : g ∈ s1.folders := by simp [hs1]
        have hinv' := walkSegments_inv rest (FolderId.gen s.nextId) s1 hinv1
        have hgmem' := walkSegments_mem rest (FolderId.gen s.nextId) s1 g hgmem
        have hfind' :
            findChildFolder (walkSegments rest (FolderId.gen s.nextId) s1).state p seg
              = some g :=
          findChildFolder_of_mem _ p seg g hinv' hgmem' rfl rfl
        have hih := ih (FolderId.gen s.nextId) s1 hinv1
        simp only [walkSegments, if_neg h, hf, hfind']
        refine ⟨hih.1, hih.2.1, ?_⟩
        simpa [DriveOp.isCreate] using hih.2.2

/-- No folder in the store has `p` as its parent. -/
def NoChildOf (s : DriveState) (p : FolderId) : Prop :=
  ∀ f ∈ s.folders, f.parent ≠ p

/-- Every folder's parent is the root or a generated id below the counter. -/
def ParentsLt (s : DriveState) : Prop :=
  ∀ f ∈ s.folders, f.parent = FolderId.root ∨ ∃ k, k < s.nextId ∧ f.parent = FolderId.gen k

/-- The id `p` is the root or a generated id below the counter of `s`. -/
def PLt (p : FolderId) (s : DriveState) : Prop :=
  p = FolderId.root ∨ ∃ k, k < s.nextId ∧ p = FolderId.gen k

/-- Starting from a parent that has no children yet (in particular from the
root of an empty store), every non-empty segment of the walk performs exactly
one folder creation. -/
theorem walkSegments_all_create (l : List String) (p : FolderId) (s : DriveState)
    (h1 : NoChildOf s p) (h2 : ParentsLt s) (h3 : PLt p s) :
    ((walkSegments l p s).trace.filter DriveOp.isCreate).length
      = (l.filter fun x => x != "").length := by
  induction l generalizing p s with
  | nil => simp [walkSegments]
  | cons seg rest ih =>
    by_cases h : seg = ""
    · have hb : (seg != "") = false := by simp [h]
      rw [List.filter_cons, if_neg (by simp [hb])]
      simpa [walkSegments, h] using ih p s h1 h2 h3
    · have hnone : findChildFolder s p seg = none :=
        (findChildFolder_none_iff s p seg).mpr fun f hf hc => h1 f hf hc.2
      set g : DriveFolder := ⟨FolderId.gen s.nextId, p, seg⟩ with hgdef
      set s1 : DriveState := ⟨s.folders ++ [g], s.nextId + 1⟩ with hs1
      have h1' : NoChildOf s1 (FolderId.gen s.nextId) := by
        intro f hf
        rcases List.mem_append.mp hf with hold | hnew
        · rcases h2 f hold with hr | ⟨k, hk, hp⟩
          · rw [hr]; intro hc; cases hc
          · rw [hp]; intro hc; cases hc; exact absurd rfl (Nat.ne_of_lt hk)
        · rw [List.mem_singleton.mp hnew]
          show p ≠ FolderId.gen s.nextId
          rcases h3 with hr | ⟨k, hk, hp⟩
          · rw [hr]; intro hc; cases hc
          · rw [hp]; intro hc; cases hc; exact absurd rfl (Nat.ne_of_lt hk)
      have h2' : ParentsLt s1 := by
        intro f hf
        rcases List.mem_append.mp hf with hold | hnew
        · rcases h2 f hold with hr | ⟨k, hk, hp⟩
          · exact Or.inl hr
          · exact Or.inr ⟨k, Nat.lt_trans hk (Nat.lt_succ_self _), hp⟩
        · rw [List.mem_singleton.mp hnew]
          rcases h3 with hr | ⟨k, hk, hp⟩
          · exact Or.inl hr
          · exact Or.inr ⟨k, Nat.lt_trans hk (Nat.lt_succ_self _), hp⟩
      have h3' : PLt (FolderId.gen s.nextId) s1 :=
        Or.inr ⟨s.nextId, Nat.lt_succ_self _, rfl⟩
      have hb : (seg != "") = true := by simp [h]
      rw [List.filter_cons, if_pos hb]
      simp only [walkSegments, if_neg h, hnone]
      simpa [DriveOp.isCreate] using ih (FolderId.gen s.nextId) s1 h1' h2' h3'

/-- Claim C3: calling `createDriveFolder` twice in sequence with the same path
against a store with no concurrent writers, starting from the empty store,
creates each folder of the path exactly once — the first call performs one
creation per (non-empty) path segment and the second call performs none, and
leaves the store unchanged — and returns the same leaf folder identifier on
both calls. -/
theorem createDriveFolder_idempotent (path : String) :
    (createDriveFolder path (createDriveFolder path emptyDrive).state).leaf
        = (createDriveFolder path emptyDrive).leaf ∧
    (createDriveFolder path (createDriveFolder path emptyDrive).state).state
        = (createDriveFolder path emptyDrive).state ∧
    (createDriveFolder path (createDriveFolder path emptyDrive).state).trace.filter
        DriveOp.isCreate = [] ∧
    ((createDriveFolder path emptyDrive).trace.filter DriveOp.isCreate).length
        = ((splitSlash path).filter fun x => x != "").length := by
  have hinv : DriveInv emptyDrive := by
    constructor <;> intro f hf <;> cases hf
  have hrep := walkSegments_replay (splitSlash path) FolderId.root emptyDrive hinv
  have hall := walkSegments_all_create (splitSlash path) FolderId.root emptyDrive
    (fun f hf => absurd hf (by intro h; cases h))
    (fun f hf => absurd hf (by intro h; cases h))
    (Or.inl rfl)
  exact ⟨hrep.1, hrep.2.1, hrep.2.2, hall⟩

/-- Claim C10: `createDriveFolder` skips empty path segments — two paths whose
non-empty segment lists agree produce identical results (same leaf id, same
store, same trace of lookups/creations), and a path with no non-empty segment
(empty or separators only) returns the root id, leaves the store untouched and
issues no store call. -/
theorem createDriveFolder_skips_empty (p₁ p₂ : String) (s : DriveState)
    (h : ((splitSlash p₁).filter fun x => x != "")
        = ((splitSlash p₂).filter fun x => x != "")) :
    createDriveFolder p₁ s = createDriveFolder p₂ s ∧
    (((splitSlash p₁).filter fun x => x != "") = [] →
      createDriveFolder p₁ s = ⟨FolderId.root, s, []⟩) := by
  constructor
  · unfold createDriveFolder
    rw [← walkSegments_filter (splitSlash p₁), h, walkSegments_filter]
  · intro he
    unfold createDriveFolder
    rw [← walkSegments_filter (splitSlash p₁), he]
    rfl

/-- Witness for C10 at a concrete input: `"//a/"` and `"a"` have the same
non-empty segments, and the resolver treats the two paths identically;
`"///"` consists only of separators and resolves to the root with no store
call. -/
theorem createDriveFolder_skips_empty_witness :
    (((splitSlash "//a/").filter fun x => x != "")
        = ((splitSlash "a").filter fun x => x != "")) ∧
    createDriveFolder "//a/" emptyDrive = createDriveFolder "a" emptyDrive ∧
    createDriveFolder "///" emptyDrive = ⟨FolderId.root, emptyDrive, []⟩ := by
  refine ⟨by decide, (createDriveFolder_skips_empty "//a/" "a" emptyDrive (by decide)).1,
    (createDriveFolder_skips_empty "///" "" emptyDrive (by decide)).2 (by decide)⟩

/-! ### Lemmas about the listing query -/

/-- Descending order on the upload timestamp. -/
def DateGe (x y : AssetRec) : Prop := y.uploadDate ≤ x.uploadDate

theorem mem_insertDesc (x a : AssetRec) (l : List AssetRec) :
    x ∈ insertDesc a l ↔ x = a ∨ x ∈ l := by
  induction l with
  | nil => simp [insertDesc]
  | cons b t ih =>
    unfold insertDesc
    split
    · simp only [List.mem_cons, ih]
      tauto
    · simp only [List.mem_cons]

theorem mem_sortByDateDesc (x : AssetRec) (l : List AssetRec) :
    x ∈ sortByDateDesc l ↔ x ∈ l := by
  induction l with
  | nil => simp [sortByDateDesc]
  | cons a t ih => simp [sortByDateDesc, mem_insertDesc, ih]

theorem pairwise_insertDesc (a : AssetRec) (l : List AssetRec)
    (h : l.Pairwise DateGe) : (insertDesc a l).Pairwise DateGe := by
  induction l with
  | nil => simp [insertDesc]
  | cons b t ih =>
    obtain ⟨hb, ht⟩ := List.pairwise_cons.mp h
    unfold insertDesc
    split
    · rename_i hab
      refine List.pairwise_cons.mpr ⟨?_, ih ht⟩
      intro x hx
      rcases (mem_insertDesc x a t).mp hx with rfl | hxt
      · exact hab
      · exact hb x hxt
    · rename_i hab
      refine List.pairwise_cons.mpr ⟨?_, h⟩
      intro x hx
      rcases List.mem_cons.mp hx with rfl | hxt
      · exact Int.le_of_lt (Int.lt_of_not_ge hab)
      · exact Int.le_trans (hb x hxt) (Int.le_of_lt (Int.lt_of_not_ge hab))

theorem pairwise_sortByDateDesc (l : List AssetRec) :
    (sortByDateDesc l).Pairwise DateGe := by
  induction l with
  | nil => simp [sortByDateDesc]
  | cons a t ih => exact pairwise_insertDesc a _ ih

theorem applyOffset_sublist (o : Option Nat) (l : List AssetRec) :
    List.Sublist (applyOffset o l) l := by
  cases o with
  | none => exact List.Sublist.refl l
  | some n =>
    by_cases h : n = 0
    · simp [applyOffset, h]
    · simpa [applyOffset, h] using List.drop_sublist n l

theorem applyLimit_sublist (o : Option Nat) (l : List AssetRec) :
    List.Sublist (applyLimit o l) l := by
  cases o with
  | none => exact List.Sublist.refl l
  | some n =>
    by_cases h : n = 0
    · simp [applyLimit, h]
    · simpa [applyLimit, h] using List.take_sublist n l

/-! ### Claim C5: result ordering -/

/-- Lexicographic order on character lists, by code point. -/
def lexLe : List Char → List Char → Bool
  | [], _ => true
  | _ :: _, [] => false
  | a :: as, b :: bs =>
    if a.toNat < b.toNat then true
    else if b.toNat < a.toNat then false
    else lexLe as bs

/-- Modelled from the spec (§4.4): no sort-key selection exists anywhere in
`src` (`GET /api/assets` reads no sort parameter and `getAssets` hard-codes
`orderBy(desc(uploadDate))`), so the spec's "sort by name" ordering is written
from the spec's words for comparison: filename ascending. -/
def specInsertByName (a : AssetRec) : List AssetRec → List AssetRec
  | [] => [a]
  | b :: l =>
    if lexLe b.filename.data a.filename.data then b :: specInsertByName a l
    else a :: b :: l

/-- Modelled from the spec (§4.4): listing sorted by the requested `name`
sort key (see `specInsertByName`). -/
def specSortByName : List AssetRec → List AssetRec
  | [] => []
  | a :: l => specInsertByName a (specSortByName l)

/-- A fixed asset record used to build concrete test records. -/
def baseAsset : AssetRec :=
  { id := 0, filename := "f", originalName := "f.png", category := "Brand"
    assetType := "Static", region := "NA", state := "CA", resort := none
    year := 2025, month := 1, version := 1, fileSize := 10
    mimeType := "image/png", tags := [], isFavorite := false, uploadDate := 0 }

def assetD3B : AssetRec := { baseAsset with id := 1, filename := "B", uploadDate := 3 }

def assetD2C : AssetRec := { baseAsset with id := 2, filename := "C", uploadDate := 2 }

def assetD1A : AssetRec := { baseAsset with id := 3, filename := "A", uploadDate := 1 }

/-- Claim C5 as stated is false: the listing accepts no sort key — `Filters`
mirrors every query option `GET /api/assets` reads, and none selects a sort —
and the result ordering is upload-date descending regardless; on a concrete
store the returned order is neither name-ascending nor name-descending, so no
"name" sort is available, contrary to the claim that name/size/type sorts can
be requested. -/
theorem sortKey_counterexample :
    (getAssets {} [assetD2C, assetD1A, assetD3B]).map (fun a => a.filename)
        = ["B", "C", "A"] ∧
    (specSortByName [assetD2C, assetD1A, assetD3B]).map (fun a => a.filename)
        = ["A", "B", "C"] ∧
    (["B", "C", "A"] : List String) ≠ ["A", "B", "C"] ∧
    (["B", "C", "A"] : List String) ≠ ["C", "B", "A"] := by
  refine ⟨by decide, by decide, by decide, by decide⟩

/-- Claim C5 amended: every listing result is ordered by upload timestamp
descending (the only ordering the code produces, for every filter object);
no sort key other than the default date-descending exists. -/
theorem getAssets_date_desc_sorted (fl : Filters) (store : List AssetRec) :
    (getAssets fl store).Pairwise DateGe := by
  unfold getAssets
  exact ((pairwise_sortByDateDesc _).sublist (applyOffset_sublist _ _)).sublist
    (applyLimit_sublist _ _)

/-! ### Claim C4: filter composition and the "all" sentinel -/

/-- Modelled from the spec (§4.4): an exact-match filter is active only when
present, non-empty and not the sentinel `"all"`. -/
def specStrCond (v : Option String) (field : String) : Bool :=
  match v with
  | none => true
  | some s => if s = "" || s = "all" then true else field == s

/-- Modelled from the spec (§4.4): the resort filter with the `"all"`
sentinel, against the nullable resort column. -/
def specResortCond (v : Option String) (field : Option String) : Bool :=
  match v with
  | none => true
  | some s =>
    if s = "" || s = "all" then true
    else match field with
      | some r => r == s
      | none => false

/-- Modelled from the spec (§4.4): the full conjunction of predicates with the
`"all"` sentinel exempting the five exact-match fields. -/
def specMatches (fl : Filters) (a : AssetRec) : Bool :=
  specStrCond fl.category a.category && specStrCond fl.assetType a.assetType &&
  specStrCond fl.region a.region && specStrCond fl.state a.state &&
  specResortCond fl.resort a.resort &&
  startCond fl.startDate a.uploadDate && endCond fl.endDate a.uploadDate &&
  searchCond fl.search a.filename

def filtersAllCategory : Filters := { category := some "all" }

/-- Claim C4 as stated is false: `getAssets` tests only truthiness, so the
sentinel value `"all"` contributes an exact-match predicate like any other
value — a record with category `"Brand"` is rejected by the code's predicate
under `\x7bcategory: "all"\x7d`, whereas the spec's sentinel semantics would
accept it (and the full listing drops the record). -/
theorem filters_all_sentinel_counterexample :
    matchesFilters filtersAllCategory baseAsset = false ∧
    specMatches filtersAllCategory baseAsset = true ∧
    getAssets filtersAllCategory [baseAsset] = [] := by
  refine ⟨by decide, by decide, by decide⟩

/-- Claim C4 amended: each of the five fields contributes an exact-match
predicate exactly when it is present and non-empty — the value `"all"`
receives no special treatment and filters like any other value — and all
contributed predicates (including the date and search predicates) are
combined with logical AND. -/
theorem matchesFilters_characterization (fl : Filters) (a : AssetRec) :
    matchesFilters fl a = true ↔
      (∀ v, fl.category = some v → v ≠ "" → a.category = v) ∧
      (∀ v, fl.assetType = some v → v ≠ "" → a.assetType = v) ∧
      (∀ v, fl.region = some v → v ≠ "" → a.region = v) ∧
      (∀ v, fl.state = some v → v ≠ "" → a.state = v) ∧
      (∀ v, fl.resort = some v → v ≠ "" → a.resort = some v) ∧
      (∀ d, fl.startDate = some d → d ≤ a.uploadDate) ∧
      (∀ d, fl.endDate = some d → a.uploadDate ≤ d) ∧
      (∀ v, fl.search = some v → v ≠ "" → v.data <:+: a.filename.data) := by
  have hstr : ∀ (v : Option String) (field : String),
      strCond v field = true ↔ ∀ x, v = some x → x ≠ "" → field = x := by
    intro v field
    cases v with
    | none => simp [strCond]
    | some s =>
      by_cases hs : s = "" <;> simp [strCond, hs]
  have hres : ∀ (v : Option String) (field : Option String),
      resortCond v field = true ↔ ∀ x, v = some x → x ≠ "" → field = some x := by
    intro v field
    cases v with
    | none => simp [resortCond]
    | some s =>
      by_cases hs : s = ""
      · simp [resortCond, hs]
      · cases field with
        | none => simp [resortCond, hs]
        | some r => simp [resortCond, hs]
  have hstart : ∀ (v : Option Int) (d : Int),
      startCond v d = true ↔ ∀ x, v = some x → x ≤ d := by
    intro v d
    cases v <;> simp [startCond]
  have hend : ∀ (v : Option Int) (d : Int),
      endCond v d = true ↔ ∀ x, v = some x → d ≤ x := by
    intro v d
    cases v <;> simp [endCond]
  have hsearch : ∀ (v : Option String) (field : String),
      searchCond v field = true ↔ ∀ x, v = some x → x ≠ "" → x.data <:+: field.data := by
    intro v field
    cases v with
    | none => simp [searchCond]
    | some s =>
      by_cases hs : s = "" <;> simp [searchCond, hs]
  simp only [matchesFilters, Bool.and_eq_true, hstr, hres, hstart, hend, hsearch]
  tauto

/-! ### Claim C8: inclusive date bounds -/

/-- Claim C8: with a start and/or end date (either independently omittable)
and no other filter, a record is in the listing exactly when its upload
timestamp is ≥ the start date (when given) and ≤ the end date (when given) —
both bounds inclusive. -/
theorem getAssets_date_range (sd ed : Option Int) (a : AssetRec)
    (store : List AssetRec) :
    a ∈ getAssets { startDate := sd, endDate := ed } store ↔
      a ∈ store ∧ (∀ d, sd = some d → d ≤ a.uploadDate) ∧
        (∀ d, ed = some d → a.uploadDate ≤ d) := by
  unfold getAssets applyLimit applyOffset
  simp only []
  rw [mem_sortByDateDesc, List.mem_filter]
  have hm : ∀ x : AssetRec,
      matchesFilters { startDate := sd, endDate := ed } x = true ↔
        startCond sd x.uploadDate = true ∧ endCond ed x.uploadDate = true := by
    intro x
    simp [matchesFilters, strCond, resortCond, searchCond]
  rw [hm]
  have hstart : startCond sd a.uploadDate = true ↔ ∀ d, sd = some d → d ≤ a.uploadDate := by
    cases sd <;> simp [startCond]
  have hend : endCond ed a.uploadDate = true ↔ ∀ d, ed = some d → a.uploadDate ≤ d := by
    cases ed <;> simp [endCond]
  rw [hstart, hend]

/-! ### Claim C9: the `hasMore` flag -/

def filtersNoMatch : Filters := { category := some "Tactical" }

/-- Claim C9's closing consequence is false: `hasMore` can never be `false`
while more filtered pages exist, because the filtered count never exceeds the
unfiltered total that `hasMore` compares against. -/
theorem hasMore_no_underreport :
    ¬ ∃ (q : Filters) (limit offset : Nat) (store : List AssetRec),
        (listAssetsHandler q limit offset store).2.2 = false ∧
        offset + limit < (store.filter (matchesFilters
          { q with limit := some limit, offset := some offset })).length := by
  rintro ⟨q, limit, offset, store, hfalse, hlt⟩
  have hle : (store.filter (matchesFilters
      { q with limit := some limit, offset := some offset })).length ≤ store.length :=
    List.length_filter_le _ _
  have : offset + limit < store.length := Nat.lt_of_lt_of_le hlt hle
  simp only [listAssetsHandler, getAssetCount, decide_eq_false_iff_not] at hfalse
  exact hfalse this

/-- Claim C9 amended: `hasMore` equals `offset + limit < total count of ALL
assets` where the total ignores the request's filters — so it is identical
across different filter objects — and for some filtered requests `hasMore` is
`true` even though the filtered result set is already exhausted (witnessed by
a filter matching nothing over a three-record store); the converse
under-report, however, is impossible (see the accompanying negative result). -/
theorem hasMore_amended :
    (∀ (q q' : Filters) (limit offset : Nat) (store : List AssetRec),
      (listAssetsHandler q limit offset store).2.2
          = decide (offset + limit < getAssetCount store) ∧
      (listAssetsHandler q limit offset store).2.2
          = (listAssetsHandler q' limit offset store).2.2) ∧
    (∃ (q : Filters) (limit offset : Nat) (store : List AssetRec),
      (listAssetsHandler q limit offset store).2.2 = true ∧
      (getAssets { q with limit := some limit, offset := some offset } store).length
          = (store.filter (matchesFilters
              { q with limit := some limit, offset := some offset })).length) := by
  constructor
  · intro q q' limit offset store
    exact ⟨rfl, rfl⟩
  · refine ⟨filtersNoMatch, 1, 0, [assetD3B, assetD2C, assetD1A], by decide, by decide⟩

/-! ### Claim C6: delete is conditioned on blob deletion -/

/-- Claim C6 as stated is false: when the Drive (blob) deletion fails, the
handler's `catch` answers 500 and `storage.deleteAsset` is never reached, so
the metadata record survives and a subsequent lookup still finds it. -/
theorem delete_metadata_kept_counterexample :
    deleteHandler 0 false [baseAsset] = (.failure, [baseAsset]) ∧
    getAsset 0 [baseAsset] = some baseAsset := by
  refine ⟨by decide, by decide⟩

/-- Claim C6 amended: for an existing asset, the metadata record is removed —
and a subsequent lookup by the same identifier then fails — exactly when the
preceding blob deletion succeeded; when the blob deletion fails the handler
reports failure and leaves the metadata record in place. -/
theorem deleteHandler_conditional (assetId : Nat) (store : List AssetRec)
    (a : AssetRec) (h : getAsset assetId store = some a) :
    deleteHandler assetId true store = (.success, deleteAssetStore assetId store) ∧
    getAsset assetId (deleteAssetStore assetId store) = none ∧
    deleteHandler assetId false store = (.failure, store) ∧
    getAsset assetId store = some a := by
  refine ⟨by simp [deleteHandler, h], ?_, by simp [deleteHandler, h], h⟩
  unfold getAsset deleteAssetStore
  rw [List.find?_eq_none]
  intro x hx
  have := (List.mem_filter.mp hx).2
  simpa using this

/-- Witness for C6 amended at a concrete input: deleting the only record with
a successful blob deletion empties the store and makes the lookup fail. -/
theorem deleteHandler_conditional_witness :
    getAsset 0 [baseAsset] = some baseAsset ∧
    deleteHandler 0 true [baseAsset] = (.success, []) ∧
    getAsset 0 (deleteAssetStore 0 [baseAsset]) = none := by
  have h := deleteHandler_conditional 0 [baseAsset] baseAsset (by decide)
  refine ⟨h.2.2.2, ?_, h.2.1⟩
  have := h.1
  rwa [show deleteAssetStore 0 [baseAsset] = [] from by decide] at this

/-! ### Claims C1 and C2: batch abort and validation placement -/

theorem processFile_invalid (cfg : Bool) (b : UploadBody) (f : UploadedFile)
    (y m : Nat) (ds : DriveState) (store : List AssetRec) (hb : parseOk b = false) :
    (processFile cfg b f y m ds store).1 = none ∧
    (processFile cfg b f y m ds store).2.2.1 = store ∧
    ∀ e ∈ (processFile cfg b f y m ds store).2.2.2, e.isMetaInsert = false := by
  unfold processFile
  rw [hb]
  simp only [Bool.false_eq_true, if_false]
  refine ⟨?_, ?_, ?_⟩
  · trivial
  · trivial
  cases cfg with
  | false => simp
  | true =>
    simp only [if_true]
    intro e he
    rcases List.mem_append.mp he with hm | hb2
    · obtain ⟨op, -, rfl⟩ := List.mem_map.mp hm
      cases op <;> rfl
    · rw [List.mem_singleton.mp hb2]
      rfl

/-- Claim C1 amended: validation depends only on the batch-level attributes
(`insertAssetSchema` reads `category`/`assetType`/`region`/`state` from the
shared `req.body`), so a validation failure strikes the very first file; the
single `try/catch` around the loop then aborts the entire request with one
batch-level 500 — there are no per-file outcomes — and no metadata record is
persisted for any file of the batch. -/
theorem uploadBatch_abort_on_validation (cfg : Bool) (b : UploadBody)
    (files : List UploadedFile) (y m : Nat) (ds : DriveState) (store : List AssetRec)
    (hb : parseOk b = false) (hne : files ≠ []) :
    (uploadHandler cfg b files y m ds store).1 = .failure ∧
    (uploadHandler cfg b files y m ds store).2.2.1 = store := by
  cases files with
  | nil => exact absurd rfl hne
  | cons f rest =>
    have hp := processFile_invalid cfg b f y m ds store hb
    rcases hP : processFile cfg b f y m ds store with ⟨o, ds1, st1, e1⟩
    rw [hP] at hp
    obtain rfl : o = none := hp.1
    obtain rfl : st1 = store := hp.2.1
    simp [uploadHandler, uploadGo, hP]

def bodyNoCategory : UploadBody :=
  { assetType := some "Static", region := some "R1", state := some "S1" }

def fileA : UploadedFile := ⟨"photo.png", "tmp1", 100, "image/png"⟩

def fileB : UploadedFile := ⟨"video.mp4", "tmp2", 200, "video/mp4"⟩

/-- Claim C1 as stated is false at a concrete input: in a two-file batch whose
attributes fail validation, the handler answers with a single batch failure,
reports no per-file outcomes, and persists nothing — in particular the sibling
file is not persisted (the store would have one record if it were). -/
theorem uploadBatch_abort_counterexample :
    uploadHandler false bodyNoCategory [fileA, fileB] 2025 10 emptyDrive []
        = (.failure, emptyDrive, [], []) ∧
    (uploadHandler false bodyNoCategory [fileA, fileB] 2025 10 emptyDrive []).2.2.1.length
        ≠ 1 := by
  refine ⟨by decide, by decide⟩

/-- Witness for C1 amended at a concrete input. -/
theorem uploadBatch_abort_on_validation_witness :
    parseOk bodyNoCategory = false ∧
    (uploadHandler false bodyNoCategory [fileA, fileB] 2025 10 emptyDrive []).1
        = .failure := by
  refine ⟨by decide, (uploadBatch_abort_on_validation false bodyNoCategory [fileA, fileB]
    2025 10 emptyDrive [] (by decide) (by decide)).1⟩

/-- Claim C2 amended: a file with missing required attributes fails with a
validation error and no metadata insert is attempted for it — but the
validation happens only at the `insertAssetSchema.parse` step, after the
folder lookups/creations and the blob upload have already been attempted when
Drive is configured (see the counterexample for the attempted blob work). -/
theorem upload_validation_before_metadata (cfg : Bool) (b : UploadBody)
    (files : List UploadedFile) (y m : Nat) (ds : DriveState) (store : List AssetRec)
    (hb : parseOk b = false) (hne : files ≠ []) :
    (uploadHandler cfg b files y m ds store).1 = .failure ∧
    ∀ e ∈ (uploadHandler cfg b files y m ds store).2.2.2, e.isMetaInsert = false := by
  cases files with
  | nil => exact absurd rfl hne
  | cons f rest =>
    have hp := processFile_invalid cfg b f y m ds store hb
    rcases hP : processFile cfg b f y m ds store with ⟨o, ds1, st1, e1⟩
    rw [hP] at hp
    obtain rfl : o = none := hp.1
    have he1 : ∀ e ∈ e1, e.isMetaInsert = false := hp.2.2
    simp only [uploadHandler, List.isEmpty_cons, uploadGo, hP]
    exact ⟨rfl, by simpa using he1⟩

/-- Claim C2 as stated is false at a concrete input: with Drive configured and
the category attribute missing, ingesting one file performs eight folder
lookups-and-creations and one blob upload before the validation error stops
it; only the metadata insert is prevented. -/
theorem upload_validation_after_blob_counterexample :
    (uploadHandler true bodyNoCategory [fileA] 2025 10 emptyDrive []).1 = .failure ∧
    (uploadHandler true bodyNoCategory [fileA] 2025 10 emptyDrive []).2.2.1 = [] ∧
    ((uploadHandler true bodyNoCategory [fileA] 2025 10 emptyDrive []).2.2.2.filter
        Effect.isFolderCreate).length = 8 ∧
    ((uploadHandler true bodyNoCategory [fileA] 2025 10 emptyDrive []).2.2.2.filter
        Effect.isBlobUpload).length = 1 ∧
    (uploadHandler true bodyNoCategory [fileA] 2025 10 emptyDrive []).2.2.2.filter
        Effect.isMetaInsert = [] := by
  refine ⟨by decide, by decide, by decide, by decide, by decide⟩

/-- Witness for C2 amended at a concrete input. -/
theorem upload_validation_before_metadata_witness :
    parseOk bodyNoCategory = false ∧
    (uploadHandler true bodyNoCategory [fileA] 2025 10 emptyDrive []).1 = .failure := by
  refine ⟨by decide, (upload_validation_before_metadata true bodyNoCategory [fileA]
    2025 10 emptyDrive [] (by decide) (by decide)).1⟩

/-! ### Claim C7: canonical path and filename derivation -/

theorem digitChar_ne_slash (n : Nat) : Nat.digitChar n ≠ '/' := by
  by_cases h : n < 16
  · have hb : ∀ m, m < 16 → Nat.digitChar m ≠ '/' := by decide
    exact hb n h
  · unfold Nat.digitChar
    repeat' rw [if_neg (by omega)]
    decide

theorem toDigitsCore_ne_slash (b : Nat) (fuel : Nat) : ∀ (n : Nat) (acc : List Char),
    '/' ∉ acc → '/' ∉ Nat.toDigitsCore b fuel n acc := by
  induction fuel with
  | zero => intro n acc hacc; simpa [Nat.toDigitsCore] using hacc
  | succ f ih =>
    intro n acc hacc
    simp only [Nat.toDigitsCore]
    have hcons : '/' ∉ Nat.digitChar (n % b) :: acc := by
      intro hm
      rcases List.mem_cons.mp hm with h | h
      · exact digitChar_ne_slash (n % b) h.symm
      · exact hacc h
    split
    · exact hcons
    · exact ih (n / b) (Nat.digitChar (n % b) :: acc) hcons

theorem repr_ne_slash (n : Nat) : '/' ∉ (Nat.repr n).data := by
  show '/' ∉ Nat.toDigitsCore 10 (n + 1) n []
  exact toDigitsCore_ne_slash 10 (n + 1) n [] (by simp)

theorem pad2_ne_slash (n : Nat) : '/' ∉ (pad2 n).data := by
  unfold pad2
  split
  · intro hm
    rw [String.data_append] at hm
    rcases List.mem_append.mp hm with h | h
    · revert h; decide
    · exact repr_ne_slash n h
  · exact repr_ne_slash n

theorem pad2_length (m : Nat) (h1 : 1 ≤ m) (h2 : m ≤ 12) : (pad2 m).length = 2 := by
  interval_cases m <;> decide

theorem folderPath_data (c r st : String) (rs : Option String) (y m : Nat) (t : String) :
    (folderPath c r st rs y m t).data =
      List.intercalate ['/']
        ["Assets".data, c.data, r.data, st.data, (resortOrBrand rs).data,
         (Nat.repr y).data, (pad2 m).data, t.data] := by
  have h1 : ("Assets/" : String).data = "Assets".data ++ ['/'] := by decide
  have h2 : ("/" : String).data = ['/'] := by decide
  simp [folderPath, List.intercalate, List.intersperse, String.data_append, h1, h2]

theorem splitSlash_folderPath (c r st : String) (rs : Option String) (y m : Nat)
    (t : String) (hc : '/' ∉ c.data) (hr : '/' ∉ r.data) (hst : '/' ∉ st.data)
    (hrs : '/' ∉ (resortOrBrand rs).data) (ht : '/' ∉ t.data) :
    splitSlash (folderPath c r st rs y m t) =
      ["Assets", c, r, st, resortOrBrand rs, Nat.repr y, pad2 m, t] := by
  unfold splitSlash
  rw [folderPath_data]
  rw [List.splitOn_intercalate
    ["Assets".data, c.data, r.data, st.data, (resortOrBrand rs).data,
     (Nat.repr y).data, (pad2 m).data, t.data] '/' ?hx ?hls]
  · rfl
  case hx =>
    intro l hl
    simp only [List.mem_cons, List.not_mem_nil, or_false] at hl
    rcases hl with rfl | rfl | rfl | rfl | rfl | rfl | rfl | rfl
    · decide
    · exact hc
    · exact hr
    · exact hst
    · exact hrs
    · exact repr_ne_slash y
    · exact pad2_ne_slash m
    · exact ht
  case hls => simp

/-- Claim C7: for a valid attribute set (slash-free text attributes, month in
1..12), the derived folder path splits into exactly one segment per hierarchy
level — `Assets/category/region/state/resort-or-Brand/year/padded-month/assetType` —
the filename stem follows the documented template (it coincides with the
spec-modelled template `specFilenameStem`), the full filename appends the
original file's extension to the stem, the month is zero-padded to two digits,
and `"Brand"` is substituted when the resort is absent or empty. -/
theorem derivePath_correct (category region state assetType extension : String)
    (resort : Option String) (year month version : Nat)
    (hc : '/' ∉ category.data) (hr : '/' ∉ region.data) (hs : '/' ∉ state.data)
    (ht : '/' ∉ assetType.data) (ho : '/' ∉ (resortOrBrand resort).data)
    (hm1 : 1 ≤ month) (hm2 : month ≤ 12) :
    splitSlash (folderPath category region state resort year month assetType)
        = ["Assets", category, region, state, resortOrBrand resort,
           Nat.repr year, pad2 month, assetType] ∧
    fullFilename year month region resort assetType version extension
        = filenameStem year month region resort assetType version ++ extension ∧
    filenameStem year month region resort assetType version
        = specFilenameStem year month region resort assetType version ∧
    (pad2 month).length = 2 ∧
    (resort = none ∨ resort = some "" → resortOrBrand resort = "Brand") := by
  refine ⟨splitSlash_folderPath category region state resort year month assetType
    hc hr hs ho ht, rfl, rfl, pad2_length month hm1 hm2, ?_⟩
  rintro (rfl | rfl)
  · rfl
  · simp [resortOrBrand]

/-- Witness for C7 at a concrete valid attribute set. -/
theorem derivePath_correct_witness :
    ('/' ∉ ("Brand" : String).data ∧ 1 ≤ 3 ∧ 3 ≤ 12) ∧
    splitSlash (folderPath "Brand" "NA" "CA" none 2025 3 "Static")
        = ["Assets", "Brand", "NA", "CA", resortOrBrand none,
           Nat.repr 2025, pad2 3, "Static"] := by
  refine ⟨⟨by decide, by decide, by decide⟩,
    (derivePath_correct "Brand" "NA" "CA" "Static" ".png" none 2025 3 1
      (by decide) (by decide) (by decide) (by decide) (by decide)
      (by decide) (by decide)).1⟩

end RepoMgmt
